import Mathlib

/-!
Shallow embedding of the str-index crate: a u32 byte index into a string
(StrIndex, src/lib.rs), a half-open validated range of such indices
(StrRange), wrapping and checked arithmetic (src/ops.rs, src/lib.rs),
conversions (src/convert.rs), textual rendering (src/fmt.rs) and the
serde codec adapter (src/serde.rs).

Fatal panics (failed assertions) are modelled as `none` of an `Option`
result; recoverable serde decode errors are modelled as `Except.error`.
-/

/-- Size of the u32 domain; a u32 value is a natural number below this. -/
def u32Size : Nat := 2 ^ 32

/-- StrIndex (src/lib.rs): an index into a string, stored as a 32-bit
integer. The field `raw` is the u32 payload, always below 2^32. -/
structure StrIndex where
  raw : Nat
  isLt : raw < u32Size

instance : DecidableEq StrIndex := fun a b =>
  if h : a.raw = b.raw then
    isTrue (by cases a; cases b; simp only at h; subst h; rfl)
  else
    isFalse (fun hh => h (by rw [hh]))

instance : LE StrIndex := ⟨fun a b => a.raw ≤ b.raw⟩

instance : LT StrIndex := ⟨fun a b => a.raw < b.raw⟩

instance (a b : StrIndex) : Decidable (a ≤ b) :=
  inferInstanceAs (Decidable (a.raw ≤ b.raw))

instance (a b : StrIndex) : Decidable (a < b) :=
  inferInstanceAs (Decidable (a.raw < b.raw))

/-- StrIndex::from_str_len (src/lib.rs lines 50-55): asserts that the
string byte length is below u32::MAX (that is 2^32 - 1); the failed
assertion (a fatal panic) is modelled as `none`. -/
def StrIndex.from_str_len (s : String) : Option StrIndex :=
  if h : s.utf8ByteSize < u32Size - 1 then
    some ⟨s.utf8ByteSize, by omega⟩
  else
    none

/-- StrIndex::checked_add (src/lib.rs lines 63-65): u32 checked addition,
absent on 32-bit overflow. -/
def StrIndex.checked_add (a b : StrIndex) : Option StrIndex :=
  if h : a.raw + b.raw < u32Size then some ⟨a.raw + b.raw, h⟩ else none

/-- StrIndex::checked_sub (src/lib.rs lines 68-70): u32 checked
subtraction, absent on underflow. -/
def StrIndex.checked_sub (a b : StrIndex) : Option StrIndex :=
  if b.raw ≤ a.raw then some ⟨a.raw - b.raw, by have := a.isLt; omega⟩ else none

/-- Add for StrIndex (src/ops.rs lines 35, 6-33): plain u32 addition of
the raw fields, wrapping at the 32-bit boundary. -/
def StrIndex.add (a b : StrIndex) : StrIndex :=
  ⟨(a.raw + b.raw) % u32Size, Nat.mod_lt _ (by decide)⟩

/-- Sub for StrIndex (src/ops.rs lines 36, 6-33): plain u32 subtraction
of the raw fields, wrapping at the 32-bit boundary. -/
def StrIndex.sub (a b : StrIndex) : StrIndex :=
  ⟨(a.raw + (u32Size - b.raw)) % u32Size, Nat.mod_lt _ (by decide)⟩

/-- StrRange (src/lib.rs lines 154-158): a half-open range of StrIndex.
The struct itself carries no invariant; `start ≤ end` is enforced by the
validating construction paths and re-checked on decode. -/
structure StrRange where
  start : StrIndex
  «end» : StrIndex
deriving DecidableEq

/-- From of Range of StrIndex for StrRange (src/convert.rs lines 34-41):
builds the struct and asserts `start ≤ end`; the failed assertion (a
fatal panic) is modelled as `none`. -/
def StrRange.fromRange (start «end» : StrIndex) : Option StrRange :=
  if start ≤ «end» then some ⟨start, «end»⟩ else none

/-- From of RangeTo of StrIndex for StrRange (src/convert.rs lines
43-50): start defaults to zero; no assertion. -/
def StrRange.fromRangeTo («end» : StrIndex) : StrRange :=
  ⟨⟨0, by decide⟩, «end»⟩

/-- StrIndex::range_for (src/lib.rs lines 84-86): range from `self` to
`self + len` via the wrapping addition and the asserting From. -/
def StrIndex.range_for (self len : StrIndex) : Option StrRange :=
  StrRange.fromRange self (self.add len)

/-- StrIndex::range_to (src/lib.rs lines 105-107): range from `self` to
`end` via the asserting From. -/
def StrIndex.range_to (self «end» : StrIndex) : Option StrRange :=
  StrRange.fromRange self «end»

/-- StrIndex::as_unit_range (src/lib.rs lines 121-123): the empty range
at `self` via the asserting From. -/
def StrIndex.as_unit_range (self : StrIndex) : Option StrRange :=
  StrRange.fromRange self self

/-- StrRange::len (src/lib.rs lines 172-174): end minus start with the
wrapping subtraction. -/
def StrRange.len (self : StrRange) : StrIndex :=
  self.«end».sub self.start

/-- StrRange::is_empty (src/lib.rs lines 178-180). -/
def StrRange.is_empty (self : StrRange) : Bool :=
  decide (self.start = self.«end»)

/-- StrRange::with_start (src/lib.rs lines 199-201): rebuild through the
asserting From. -/
def StrRange.with_start (self : StrRange) (start : StrIndex) : Option StrRange :=
  StrRange.fromRange start self.«end»

/-- StrRange::with_end (src/lib.rs lines 220-222): rebuild through the
asserting From. -/
def StrRange.with_end (self : StrRange) («end» : StrIndex) : Option StrRange :=
  StrRange.fromRange self.start «end»

/-- StrRange::is_disjoint (src/lib.rs lines 245-247). -/
def StrRange.is_disjoint (self other : StrRange) : Bool :=
  decide (self.«end» ≤ other.start ∨ other.«end» ≤ self.start)

/-- StrRange::contains (src/lib.rs lines 261-263). -/
def StrRange.contains (self other : StrRange) : Bool :=
  decide (self.start ≤ other.start ∧ other.«end» ≤ self.«end»)

/-- StrRange::contains_exclusive (src/lib.rs lines 278-280). -/
def StrRange.contains_exclusive (self : StrRange) (index : StrIndex) : Bool :=
  decide (self.start ≤ index ∧ index < self.«end»)

/-- core::cmp::max on StrIndex: derived Ord compares the raw fields; max
returns the second argument when equal. -/
def StrIndex.maxi (v1 v2 : StrIndex) : StrIndex :=
  if v2 < v1 then v1 else v2

/-- core::cmp::min on StrIndex: derived Ord compares the raw fields; min
returns the first argument when equal. -/
def StrIndex.mini (v1 v2 : StrIndex) : StrIndex :=
  if v2 < v1 then v2 else v1

/-- StrRange::intersection (src/lib.rs lines 305-313). -/
def StrRange.intersection (self other : StrRange) : Option StrRange :=
  let start := StrIndex.maxi self.start other.start
  let stop := StrIndex.mini self.«end» other.«end»
  if start ≤ stop then StrRange.fromRange start stop else none

/-- StrRange::nonempty_intersection (src/lib.rs lines 335-343). -/
def StrRange.nonempty_intersection (self other : StrRange) : Option StrRange :=
  let start := StrIndex.maxi self.start other.start
  let stop := StrIndex.mini self.«end» other.«end»
  if start < stop then StrRange.fromRange start stop else none

/-- StrRange::merge (src/lib.rs lines 360-364): bounding union through
the asserting From. -/
def StrRange.merge (self other : StrRange) : Option StrRange :=
  StrRange.fromRange (StrIndex.mini self.start other.start)
    (StrIndex.maxi self.«end» other.«end»)

/-- Display for StrIndex (src/fmt.rs lines 12-16): decimal rendering of
the raw value. -/
def StrIndex.display (self : StrIndex) : String :=
  toString self.raw

/-- Display for StrRange (src/fmt.rs lines 24-28): start..end. -/
def StrRange.display (self : StrRange) : String :=
  self.start.display ++ ".." ++ self.«end».display

/-- Serde decode errors produced by the codec adapter (src/serde.rs),
one constructor per serde error constructor the adapter calls. All are
recoverable values, never process aborts. -/
inductive DeError where
  | custom (msg : String)
  | invalidLength (n : Nat)
  | duplicateField (f : String)
  | missingField (f : String)
  | unknownField (f : String)
deriving DecidableEq

/-- StrRangeField (src/serde.rs lines 151-154). -/
inductive StrRangeField where
  | start
  | stop
deriving DecidableEq

/-- StrRangeFieldVisitor::visit_str (src/serde.rs lines 174-183): field
identifier decoding; unknown names are decode errors. -/
def StrRangeFieldVisitor.visit_str (value : String) : Except DeError StrRangeField :=
  if value = "start" then Except.ok StrRangeField.start
  else if value = "end" then Except.ok StrRangeField.stop
  else Except.error (DeError.unknownField value)

/-- Serialize for StrIndex (src/serde.rs lines 10-17): the newtype
payload is the raw u32 value. -/
def StrIndex.serializePayload (self : StrIndex) : Nat :=
  self.raw

/-- StrIndexVisitor::visit_u32 (src/serde.rs lines 58-63): a u32 value
decodes directly to a StrIndex. -/
def StrIndexVisitor.visit_u32 (v : Nat) (hv : v < u32Size) : StrIndex :=
  ⟨v, hv⟩

/-- Serialize for StrRange, keyed form (src/serde.rs lines 28-38): a
struct with fields start then end. -/
def StrRange.serializeFields (self : StrRange) : List (String × StrIndex) :=
  [("start", self.start), ("end", self.«end»)]

/-- Serialize for StrRange, positional form: the same two fields in
declaration order start, end, as a sequence. -/
def StrRange.serializeSeq (self : StrRange) : List StrIndex :=
  [self.start, self.«end»]

/-- StrRangeVisitor::visit_seq (src/serde.rs lines 82-103): positional
decoding; reads two elements, errors on a short sequence, constructs the
struct manually bypassing the ordering assert, then re-checks
`start ≤ end` and signals a recoverable custom error on violation. -/
def StrRangeVisitor.visit_seq (elems : List StrIndex) : Except DeError StrRange :=
  match elems with
  | [] => Except.error (DeError.invalidLength 0)
  | [_] => Except.error (DeError.invalidLength 1)
  | start :: «end» :: _ =>
    let range : StrRange := ⟨start, «end»⟩
    if «end» < start then
      Except.error (DeError.custom ("invalid string range " ++ range.display))
    else
      Except.ok range

/-- Loop body of StrRangeVisitor::visit_map (src/serde.rs lines
105-146): consumes key/value entries, decoding each key through the
field visitor, rejecting duplicates; at the end of input requires both
fields, constructs the struct manually bypassing the ordering assert,
re-checks `start ≤ end` and signals a recoverable custom error on
violation. -/
def StrRangeVisitor.visitMapGo :
    List (String × StrIndex) → Option StrIndex → Option StrIndex →
    Except DeError StrRange
  | [], startAcc, endAcc =>
    match startAcc with
    | none => Except.error (DeError.missingField "start")
    | some start =>
      match endAcc with
      | none => Except.error (DeError.missingField "end")
      | some «end» =>
        let range : StrRange := ⟨start, «end»⟩
        if «end» < start then
          Except.error (DeError.custom ("invalid string range " ++ range.display))
        else
          Except.ok range
  | (key, value) :: rest, startAcc, endAcc =>
    match StrRangeFieldVisitor.visit_str key with
    | Except.error e => Except.error e
    | Except.ok StrRangeField.start =>
      if startAcc.isSome then Except.error (DeError.duplicateField "start")
      else StrRangeVisitor.visitMapGo rest (some value) endAcc
    | Except.ok StrRangeField.stop =>
      if endAcc.isSome then Except.error (DeError.duplicateField "end")
      else StrRangeVisitor.visitMapGo rest startAcc (some value)

/-- StrRangeVisitor::visit_map (src/serde.rs lines 105-146): keyed
decoding starting from no field seen. -/
def StrRangeVisitor.visit_map (entries : List (String × StrIndex)) :
    Except DeError StrRange :=
  StrRangeVisitor.visitMapGo entries none none

/-- Validity invariant of a string range: start at most end. This is the
property the spec asserts of every reachable StrRange. -/
def StrRange.valid (self : StrRange) : Prop :=
  self.start ≤ self.«end»

instance (r : StrRange) : Decidable r.valid :=
  inferInstanceAs (Decidable (r.start ≤ r.«end»))

/-- A StrRange value reachable through the public construction surface:
the explicit start..end From, the ..end From, range_for, range_to,
as_unit_range, with_start, with_end, intersection,
nonempty_intersection, merge, or a successful serde decode (positional
or keyed). -/
def StrRange.reachable (r : StrRange) : Prop :=
  (∃ s e, StrRange.fromRange s e = some r) ∨
  (∃ e, StrRange.fromRangeTo e = r) ∨
  (∃ s l, StrIndex.range_for s l = some r) ∨
  (∃ s e, StrIndex.range_to s e = some r) ∨
  (∃ p, StrIndex.as_unit_range p = some r) ∨
  (∃ r0 s, StrRange.with_start r0 s = some r) ∨
  (∃ r0 e, StrRange.with_end r0 e = some r) ∨
  (∃ a b, StrRange.intersection a b = some r) ∨
  (∃ a b, StrRange.nonempty_intersection a b = some r) ∨
  (∃ a b, StrRange.merge a b = some r) ∨
  (∃ elems, StrRangeVisitor.visit_seq elems = Except.ok r) ∨
  (∃ entries, StrRangeVisitor.visit_map entries = Except.ok r)

/-! Basic lemmas about the embedded order and constructors. -/

theorem StrIndex.le_def {a b : StrIndex} : a ≤ b ↔ a.raw ≤ b.raw := Iff.rfl

theorem StrIndex.lt_def {a b : StrIndex} : a < b ↔ a.raw < b.raw := Iff.rfl

theorem StrIndex.eq_iff_raw {a b : StrIndex} : a = b ↔ a.raw = b.raw := by
  constructor
  · intro h; rw [h]
  · intro h; cases a; cases b; simp only at h; subst h; rfl

theorem StrRange.fromRange_eq_some {s e : StrIndex} {r : StrRange} :
    StrRange.fromRange s e = some r ↔ s ≤ e ∧ r = ⟨s, e⟩ := by
  unfold StrRange.fromRange
  split
  · simp only [Option.some.injEq]
    constructor
    · intro h; exact ⟨by assumption, h.symm⟩
    · intro h; exact h.2.symm
  · simp only [reduceCtorEq, false_iff, not_and]
    intro h; exact absurd h (by assumption)

theorem StrRange.fromRange_eq_some_valid {s e : StrIndex} {r : StrRange}
    (h : StrRange.fromRange s e = some r) : r.valid := by
  obtain ⟨hle, rfl⟩ := StrRange.fromRange_eq_some.mp h
  exact hle

theorem StrRangeVisitor.visit_seq_ok_valid {elems : List StrIndex} {r : StrRange}
    (h : StrRangeVisitor.visit_seq elems = Except.ok r) : r.valid := by
  match elems with
  | [] => simp [StrRangeVisitor.visit_seq] at h
  | [_] => simp [StrRangeVisitor.visit_seq] at h
  | s :: e :: rest =>
    simp only [StrRangeVisitor.visit_seq] at h
    split at h
    · exact absurd h (by simp)
    · cases h
      exact Nat.le_of_not_lt (by assumption)

theorem StrRangeVisitor.visitMapGo_ok_valid :
    ∀ (entries : List (String × StrIndex)) (startAcc endAcc : Option StrIndex)
      (r : StrRange),
      StrRangeVisitor.visitMapGo entries startAcc endAcc = Except.ok r → r.valid := by
  intro entries
  induction entries with
  | nil =>
    intro startAcc endAcc r h
    match startAcc with
    | none => simp [StrRangeVisitor.visitMapGo] at h
    | some s =>
      match endAcc with
      | none => simp [StrRangeVisitor.visitMapGo] at h
      | some e =>
        simp only [StrRangeVisitor.visitMapGo] at h
        split at h
        · exact absurd h (by simp)
        · cases h
          exact Nat.le_of_not_lt (by assumption)
  | cons kv rest ih =>
    intro startAcc endAcc r h
    obtain ⟨key, value⟩ := kv
    simp only [StrRangeVisitor.visitMapGo] at h
    split at h
    · exact absurd h (by simp)
    all_goals split at h
    · exact absurd h (by simp)
    · exact ih _ _ _ h
    · exact absurd h (by simp)
    · exact ih _ _ _ h

/-- C1: every StrRange value reachable through the public interface
(construction from a start..end pair, from a ..end form, via range_for,
range_to, as_unit_range, with_start, with_end, intersection,
nonempty_intersection, merge, or successful decode) satisfies
start ≤ end; a range with start == end is a valid value, not an error. -/
theorem c1_reachable_ranges_are_valid (r : StrRange) (h : r.reachable) :
    r.valid := by
  rcases h with ⟨s, e, h⟩ | ⟨e, h⟩ | ⟨s, l, h⟩ | ⟨s, e, h⟩ | ⟨p, h⟩ | ⟨r0, s, h⟩ |
    ⟨r0, e, h⟩ | ⟨a, b, h⟩ | ⟨a, b, h⟩ | ⟨a, b, h⟩ | ⟨elems, h⟩ | ⟨entries, h⟩
  · exact StrRange.fromRange_eq_some_valid h
  · cases h; exact Nat.zero_le _
  · exact StrRange.fromRange_eq_some_valid h
  · exact StrRange.fromRange_eq_some_valid h
  · exact StrRange.fromRange_eq_some_valid h
  · exact StrRange.fromRange_eq_some_valid h
  · exact StrRange.fromRange_eq_some_valid h
  · simp only [StrRange.intersection] at h
    split at h
    · exact StrRange.fromRange_eq_some_valid h
    · exact absurd h (by simp)
  · simp only [StrRange.nonempty_intersection] at h
    split at h
    · exact StrRange.fromRange_eq_some_valid h
    · exact absurd h (by simp)
  · exact StrRange.fromRange_eq_some_valid h
  · exact StrRangeVisitor.visit_seq_ok_valid h
  · exact StrRangeVisitor.visitMapGo_ok_valid _ _ _ _ h

/-- C1 witness: the range 0..1 is reachable (explicit pair construction)
and valid. -/
theorem c1_witness :
    StrRange.reachable ⟨⟨0, by decide⟩, ⟨1, by decide⟩⟩ ∧
    StrRange.valid ⟨⟨0, by decide⟩, ⟨1, by decide⟩⟩ :=
  ⟨Or.inl ⟨⟨0, by decide⟩, ⟨1, by decide⟩, by decide⟩,
   c1_reachable_ranges_are_valid _
     (Or.inl ⟨⟨0, by decide⟩, ⟨1, by decide⟩, by decide⟩)⟩

/-- C2: whenever the decoded start exceeds the decoded end, both decode
forms (positional sequence and keyed map, in either field order) return
a recoverable error whose message is exactly
invalid string range {start}..{end} in decimal; no abort happens (the
decoder is a total function into Except). -/
theorem c2_decode_error_on_inverted_range (s e : StrIndex)
    (rest : List StrIndex) (h : e < s) :
    StrRangeVisitor.visit_seq (s :: e :: rest) =
      Except.error (DeError.custom
        ("invalid string range " ++ (toString s.raw ++ ".." ++ toString e.raw))) ∧
    StrRangeVisitor.visit_map [("start", s), ("end", e)] =
      Except.error (DeError.custom
        ("invalid string range " ++ (toString s.raw ++ ".." ++ toString e.raw))) ∧
    StrRangeVisitor.visit_map [("end", e), ("start", s)] =
      Except.error (DeError.custom
        ("invalid string range " ++ (toString s.raw ++ ".." ++ toString e.raw))) := by
  have hstart : StrRangeFieldVisitor.visit_str "start" =
      Except.ok StrRangeField.start := rfl
  have hend : StrRangeFieldVisitor.visit_str "end" =
      Except.ok StrRangeField.stop := rfl
  refine ⟨?_, ?_, ?_⟩
  · simp only [StrRangeVisitor.visit_seq, if_pos h]
    rfl
  · simp only [StrRangeVisitor.visit_map, StrRangeVisitor.visitMapGo, hstart,
      hend, Option.isSome_none, Bool.false_eq_true, if_false, Option.isSome_some,
      if_pos h]
    rfl
  · simp only [StrRangeVisitor.visit_map, StrRangeVisitor.visitMapGo, hstart,
      hend, Option.isSome_none, Bool.false_eq_true, if_false, Option.isSome_some,
      if_pos h]
    rfl

/-- C2 witness: decoding the positional sequence [10, 0] and the keyed
forms with start 10, end 0 each fail with message
invalid string range 10..0. -/
theorem c2_witness :
    (⟨0, by decide⟩ : StrIndex) < ⟨10, by decide⟩ ∧
    (StrRangeVisitor.visit_seq [⟨10, by decide⟩, ⟨0, by decide⟩] =
      Except.error (DeError.custom "invalid string range 10..0") ∧
    StrRangeVisitor.visit_map [("start", ⟨10, by decide⟩), ("end", ⟨0, by decide⟩)] =
      Except.error (DeError.custom "invalid string range 10..0") ∧
    StrRangeVisitor.visit_map [("end", ⟨0, by decide⟩), ("start", ⟨10, by decide⟩)] =
      Except.error (DeError.custom "invalid string range 10..0")) := by
  have h := c2_decode_error_on_inverted_range ⟨10, by decide⟩ ⟨0, by decide⟩ []
    (by decide)
  have hmsg : DeError.custom ("invalid string range " ++
        (toString (10 : Nat) ++ ".." ++ toString (0 : Nat))) =
      DeError.custom "invalid string range 10..0" := by decide
  exact ⟨by decide, h.1.trans (congrArg Except.error hmsg),
    h.2.1.trans (congrArg Except.error hmsg),
    h.2.2.trans (congrArg Except.error hmsg)⟩

/-- C3 counterexample: at start 4294967295 (2^32 - 1) and len 1 the
unchecked addition inside range_for wraps to 0, the ordering assert in
the From conversion fires, and range_for fails fatally (none) instead of
succeeding as the claim states. -/
theorem c3_counterexample :
    StrIndex.range_for ⟨4294967295, by decide⟩ ⟨1, by decide⟩ = none := by
  decide

/-- C3 (amended): for every start and len whose raw sum does not
overflow u32, range_for succeeds and returns the range from start to
start + len; when the sum wraps, range_for instead fails fatally in the
asserting From conversion. -/
theorem c3_range_for_of_no_overflow (start len : StrIndex)
    (h : start.raw + len.raw < u32Size) :
    StrIndex.range_for start len = some ⟨start, ⟨start.raw + len.raw, h⟩⟩ := by
  have hadd : StrIndex.add start len = ⟨start.raw + len.raw, h⟩ :=
    StrIndex.eq_iff_raw.mpr (by simp only [StrIndex.add]; exact Nat.mod_eq_of_lt h)
  have hle : start ≤ StrIndex.add start len := by
    rw [hadd]; exact Nat.le_add_right _ _
  unfold StrIndex.range_for
  rw [hadd] at hle ⊢
  unfold StrRange.fromRange
  rw [if_pos hle]

/-- C3 witness: range_for at start 5, len 10 yields the range 5..15. -/
theorem c3_witness :
    (5 : Nat) + 10 < u32Size ∧
    StrIndex.range_for ⟨5, by decide⟩ ⟨10, by decide⟩ =
      some ⟨⟨5, by decide⟩, ⟨15, by decide⟩⟩ :=
  ⟨by decide,
   c3_range_for_of_no_overflow ⟨5, by decide⟩ ⟨10, by decide⟩ (by decide)⟩

/-- C4: intersection returns some range with start the max of starts and
end the min of ends exactly when that max is at most that min (touching
ranges yield some empty range) and none otherwise; nonempty_intersection
is none whenever the overlap has zero length and otherwise equals
intersection. -/
theorem c4_intersection_spec (a b : StrRange) :
    (StrIndex.maxi a.start b.start ≤ StrIndex.mini a.«end» b.«end» →
      a.intersection b =
        some ⟨StrIndex.maxi a.start b.start, StrIndex.mini a.«end» b.«end»⟩) ∧
    (¬ StrIndex.maxi a.start b.start ≤ StrIndex.mini a.«end» b.«end» →
      a.intersection b = none) ∧
    (StrIndex.maxi a.start b.start = StrIndex.mini a.«end» b.«end» →
      a.nonempty_intersection b = none) ∧
    (StrIndex.maxi a.start b.start ≠ StrIndex.mini a.«end» b.«end» →
      a.nonempty_intersection b = a.intersection b) := by
  refine ⟨?_, ?_, ?_, ?_⟩
  · intro h
    simp only [StrRange.intersection, StrRange.fromRange]
    rw [if_pos h, if_pos h]
  · intro h
    simp only [StrRange.intersection]
    rw [if_neg h]
  · intro h
    have hneg : ¬ StrIndex.maxi a.start b.start < StrIndex.mini a.«end» b.«end» := by
      rw [h]; exact fun hlt => Nat.lt_irrefl _ hlt
    simp only [StrRange.nonempty_intersection]
    rw [if_neg hneg]
  · intro h
    rcases Nat.lt_trichotomy (StrIndex.maxi a.start b.start).raw
      (StrIndex.mini a.«end» b.«end»).raw with hlt | heq | hgt
    · simp only [StrRange.nonempty_intersection, StrRange.intersection]
      rw [if_pos (show StrIndex.maxi a.start b.start <
            StrIndex.mini a.«end» b.«end» from hlt),
        if_pos (show StrIndex.maxi a.start b.start ≤
            StrIndex.mini a.«end» b.«end» from Nat.le_of_lt hlt)]
    · exact absurd (StrIndex.eq_iff_raw.mpr heq) h
    · simp only [StrRange.nonempty_intersection, StrRange.intersection]
      rw [if_neg (show ¬ StrIndex.maxi a.start b.start <
            StrIndex.mini a.«end» b.«end» from Nat.not_lt.mpr (Nat.le_of_lt hgt)),
        if_neg (show ¬ StrIndex.maxi a.start b.start ≤
            StrIndex.mini a.«end» b.«end» from Nat.not_le.mpr hgt)]

/-- C4 witness: the touching ranges 0..10 and 10..20 have intersection
some 10..10 (max of starts is 10, min of ends is 10) and
nonempty_intersection none. -/
theorem c4_witness :
    StrRange.intersection ⟨⟨0, by decide⟩, ⟨10, by decide⟩⟩
        ⟨⟨10, by decide⟩, ⟨20, by decide⟩⟩ =
      some ⟨⟨10, by decide⟩, ⟨10, by decide⟩⟩ ∧
    StrRange.nonempty_intersection ⟨⟨0, by decide⟩, ⟨10, by decide⟩⟩
        ⟨⟨10, by decide⟩, ⟨20, by decide⟩⟩ = none :=
  ⟨(c4_intersection_spec ⟨⟨0, by decide⟩, ⟨10, by decide⟩⟩
      ⟨⟨10, by decide⟩, ⟨20, by decide⟩⟩).1 (by decide),
   (c4_intersection_spec ⟨⟨0, by decide⟩, ⟨10, by decide⟩⟩
      ⟨⟨10, by decide⟩, ⟨20, by decide⟩⟩).2.2.1 (by decide)⟩

theorem StrIndex.mini_raw (v1 v2 : StrIndex) :
    (StrIndex.mini v1 v2).raw = min v1.raw v2.raw := by
  unfold StrIndex.mini
  split
  · next h =>
    have h' : v2.raw < v1.raw := h
    omega
  · next h =>
    have h' : ¬ v2.raw < v1.raw := h
    omega

theorem StrIndex.maxi_raw (v1 v2 : StrIndex) :
    (StrIndex.maxi v1 v2).raw = max v1.raw v2.raw := by
  unfold StrIndex.maxi
  split
  · next h =>
    have h' : v2.raw < v1.raw := h
    omega
  · next h =>
    have h' : ¬ v2.raw < v1.raw := h
    omega

/-- C5: the plain add and sub operators on StrIndex wrap at the 32-bit
boundary: the result equals (a + b), respectively (a - b), modulo 2^32
as integers. Both are total functions of the embedding, never a panic. -/
theorem c5_unchecked_add_sub_wrap (a b : StrIndex) :
    (((a.add b).raw : Nat) : Int) = ((a.raw : Int) + (b.raw : Int)) % (2 ^ 32 : Int) ∧
    (((a.sub b).raw : Nat) : Int) = ((a.raw : Int) - (b.raw : Int)) % (2 ^ 32 : Int) := by
  have ha := a.isLt
  have hb := b.isLt
  simp only [StrIndex.add, StrIndex.sub, u32Size] at *
  constructor
  · omega
  · omega

/-- C6: merging two valid ranges always succeeds, yields the range from
the minimum of the starts to the maximum of the ends, and the result
contains both operands. -/
theorem c6_merge_spec (a b : StrRange) (ha : a.valid) (hb : b.valid) :
    a.merge b =
      some ⟨StrIndex.mini a.start b.start, StrIndex.maxi a.«end» b.«end»⟩ ∧
    StrRange.contains ⟨StrIndex.mini a.start b.start, StrIndex.maxi a.«end» b.«end»⟩
      a = true ∧
    StrRange.contains ⟨StrIndex.mini a.start b.start, StrIndex.maxi a.«end» b.«end»⟩
      b = true := by
  have ha' : a.start.raw ≤ a.«end».raw := ha
  have hb' : b.start.raw ≤ b.«end».raw := hb
  have e1 := StrIndex.mini_raw a.start b.start
  have e2 := StrIndex.maxi_raw a.«end» b.«end»
  refine ⟨?_, ?_, ?_⟩
  · unfold StrRange.merge StrRange.fromRange
    rw [if_pos]
    show (StrIndex.mini a.start b.start).raw ≤ (StrIndex.maxi a.«end» b.«end»).raw
    omega
  · simp only [StrRange.contains, decide_eq_true_eq]
    constructor
    · show (StrIndex.mini a.start b.start).raw ≤ a.start.raw
      omega
    · show a.«end».raw ≤ (StrIndex.maxi a.«end» b.«end»).raw
      omega
  · simp only [StrRange.contains, decide_eq_true_eq]
    constructor
    · show (StrIndex.mini a.start b.start).raw ≤ b.start.raw
      omega
    · show b.«end».raw ≤ (StrIndex.maxi a.«end» b.«end»).raw
      omega

/-- C6 witness: merging 0..10 with 20..30 yields 0..30, which contains
both operands. -/
theorem c6_witness :
    StrRange.valid ⟨⟨0, by decide⟩, ⟨10, by decide⟩⟩ ∧
    StrRange.valid ⟨⟨20, by decide⟩, ⟨30, by decide⟩⟩ ∧
    (StrRange.merge ⟨⟨0, by decide⟩, ⟨10, by decide⟩⟩
        ⟨⟨20, by decide⟩, ⟨30, by decide⟩⟩ =
      some ⟨⟨0, by decide⟩, ⟨30, by decide⟩⟩ ∧
    StrRange.contains ⟨⟨0, by decide⟩, ⟨30, by decide⟩⟩
      ⟨⟨0, by decide⟩, ⟨10, by decide⟩⟩ = true ∧
    StrRange.contains ⟨⟨0, by decide⟩, ⟨30, by decide⟩⟩
      ⟨⟨20, by decide⟩, ⟨30, by decide⟩⟩ = true) :=
  ⟨by decide, by decide,
   c6_merge_spec ⟨⟨0, by decide⟩, ⟨10, by decide⟩⟩
     ⟨⟨20, by decide⟩, ⟨30, by decide⟩⟩ (by decide) (by decide)⟩

/-- C7: checked_add is none exactly on 32-bit overflow and otherwise
returns the exact sum; checked_sub is none exactly when the subtrahend
exceeds the minuend and otherwise returns the exact difference. Both are
total functions of the embedding (no wrap, no panic). -/
theorem c7_checked_add_sub (a b : StrIndex) :
    (a.checked_add b = none ↔ u32Size ≤ a.raw + b.raw) ∧
    (∀ c, a.checked_add b = some c → c.raw = a.raw + b.raw) ∧
    (a.checked_sub b = none ↔ a.raw < b.raw) ∧
    (∀ c, a.checked_sub b = some c → c.raw = a.raw - b.raw) := by
  refine ⟨?_, ?_, ?_, ?_⟩
  · constructor
    · intro hnone
      by_contra hlt
      rw [StrIndex.checked_add, dif_pos (by omega)] at hnone
      exact Option.noConfusion hnone
    · intro hge
      rw [StrIndex.checked_add, dif_neg (by omega)]
  · intro c hc
    rcases Nat.lt_or_ge (a.raw + b.raw) u32Size with h | h
    · rw [StrIndex.checked_add, dif_pos h] at hc
      cases Option.some.inj hc
      rfl
    · rw [StrIndex.checked_add, dif_neg (Nat.not_lt.mpr h)] at hc
      exact Option.noConfusion hc
  · constructor
    · intro hnone
      by_contra hlt
      rw [StrIndex.checked_sub, if_pos (by omega)] at hnone
      exact Option.noConfusion hnone
    · intro hgt
      rw [StrIndex.checked_sub, if_neg (by omega)]
  · intro c hc
    rcases Nat.lt_or_ge a.raw b.raw with h | h
    · rw [StrIndex.checked_sub, if_neg (by omega)] at hc
      exact Option.noConfusion hc
    · rw [StrIndex.checked_sub, if_pos (by omega)] at hc
      cases Option.some.inj hc
      rfl

/-- C7 witness: 1 + 2 checks to exactly 3; 5 - 2 checks to exactly 3;
and 4294967295 + 1 overflows to none while 0 - 1 underflows to none. -/
theorem c7_witness :
    StrIndex.checked_add ⟨1, by decide⟩ ⟨2, by decide⟩ = some ⟨3, by decide⟩ ∧
    (⟨3, by decide⟩ : StrIndex).raw =
      (⟨1, by decide⟩ : StrIndex).raw + (⟨2, by decide⟩ : StrIndex).raw ∧
    StrIndex.checked_sub ⟨5, by decide⟩ ⟨2, by decide⟩ = some ⟨3, by decide⟩ ∧
    (⟨3, by decide⟩ : StrIndex).raw =
      (⟨5, by decide⟩ : StrIndex).raw - (⟨2, by decide⟩ : StrIndex).raw ∧
    StrIndex.checked_add ⟨4294967295, by decide⟩ ⟨1, by decide⟩ = none ∧
    StrIndex.checked_sub ⟨0, by decide⟩ ⟨1, by decide⟩ = none :=
  ⟨by decide,
   (c7_checked_add_sub ⟨1, by decide⟩ ⟨2, by decide⟩).2.1 ⟨3, by decide⟩ (by decide),
   by decide,
   (c7_checked_add_sub ⟨5, by decide⟩ ⟨2, by decide⟩).2.2.2 ⟨3, by decide⟩ (by decide),
   by decide, by decide⟩

/-- C8: encoding any Offset (newtype payload) or any valid Range (keyed
struct fields, positional sequence) and decoding the encoded
representation reproduces the original value exactly, across both the
keyed/map and positional/sequence decode forms. -/
theorem c8_encode_decode_roundtrip (i : StrIndex) (r : StrRange)
    (hr : r.valid) :
    StrIndexVisitor.visit_u32 i.serializePayload i.isLt = i ∧
    StrRangeVisitor.visit_map r.serializeFields = Except.ok r ∧
    StrRangeVisitor.visit_seq r.serializeSeq = Except.ok r := by
  have hr' : r.start.raw ≤ r.«end».raw := hr
  have hlt : ¬ (r.«end» < r.start) := fun hl =>
    absurd (show r.«end».raw < r.start.raw from hl) (by omega)
  have hstart : StrRangeFieldVisitor.visit_str "start" =
      Except.ok StrRangeField.start := rfl
  have hend : StrRangeFieldVisitor.visit_str "end" =
      Except.ok StrRangeField.stop := rfl
  refine ⟨rfl, ?_, ?_⟩
  · simp only [StrRange.serializeFields, StrRangeVisitor.visit_map,
      StrRangeVisitor.visitMapGo, hstart, hend, Option.isSome_none,
      Bool.false_eq_true, if_false, Option.isSome_some, if_neg hlt]
  · simp only [StrRange.serializeSeq, StrRangeVisitor.visit_seq, if_neg hlt]

/-- C8 witness: the offset 7 and the range 2..5 round-trip through
encode and both decode forms. -/
theorem c8_witness :
    StrRange.valid ⟨⟨2, by decide⟩, ⟨5, by decide⟩⟩ ∧
    (StrIndexVisitor.visit_u32
        (StrIndex.serializePayload ⟨7, by decide⟩)
        (StrIndex.isLt ⟨7, by decide⟩) = ⟨7, by decide⟩ ∧
    StrRangeVisitor.visit_map
        (StrRange.serializeFields ⟨⟨2, by decide⟩, ⟨5, by decide⟩⟩) =
      Except.ok ⟨⟨2, by decide⟩, ⟨5, by decide⟩⟩ ∧
    StrRangeVisitor.visit_seq
        (StrRange.serializeSeq ⟨⟨2, by decide⟩, ⟨5, by decide⟩⟩) =
      Except.ok ⟨⟨2, by decide⟩, ⟨5, by decide⟩⟩) :=
  ⟨by decide,
   c8_encode_decode_roundtrip ⟨7, by decide⟩ ⟨⟨2, by decide⟩, ⟨5, by decide⟩⟩
     (by decide)⟩

/-- C9: constructing an offset from a string byte length fails fatally
(modelled as none) if and only if the UTF-8 byte length is at least
2^32 - 1, and otherwise returns the offset equal to that byte length. -/
theorem c9_from_str_len_spec (s : String) :
    (StrIndex.from_str_len s = none ↔ 2 ^ 32 - 1 ≤ s.utf8ByteSize) ∧
    (∀ i, StrIndex.from_str_len s = some i → i.raw = s.utf8ByteSize) := by
  have h32 : u32Size = 2 ^ 32 := rfl
  constructor
  · constructor
    · intro hnone
      by_contra hge
      rw [StrIndex.from_str_len, dif_pos (by omega)] at hnone
      exact Option.noConfusion hnone
    · intro hge
      rw [StrIndex.from_str_len, dif_neg (by omega)]
  · intro i hi
    rcases Nat.lt_or_ge s.utf8ByteSize (u32Size - 1) with h | h
    · rw [StrIndex.from_str_len, dif_pos h] at hi
      cases Option.some.inj hi
      rfl
    · rw [StrIndex.from_str_len, dif_neg (Nat.not_lt.mpr h)] at hi
      exact Option.noConfusion hi

/-- C9 witness: the three-byte string abc yields the offset 3. -/
theorem c9_witness :
    StrIndex.from_str_len "abc" = some ⟨3, by decide⟩ ∧
    (⟨3, by decide⟩ : StrIndex).raw = String.utf8ByteSize "abc" :=
  ⟨by decide, (c9_from_str_len_spec "abc").2 ⟨3, by decide⟩ (by decide)⟩

/-- C10: merge is the least range covering both operands: any range c
containing both a and b also contains their merge. -/
theorem c10_merge_least (a b c m : StrRange)
    (hca : c.contains a = true) (hcb : c.contains b = true)
    (hm : a.merge b = some m) :
    c.contains m = true := by
  simp only [StrRange.contains, decide_eq_true_eq] at hca hcb ⊢
  obtain ⟨h1, h2⟩ := hca
  obtain ⟨h3, h4⟩ := hcb
  unfold StrRange.merge at hm
  obtain ⟨hle, rfl⟩ := StrRange.fromRange_eq_some.mp hm
  have h1' : c.start.raw ≤ a.start.raw := h1
  have h2' : a.«end».raw ≤ c.«end».raw := h2
  have h3' : c.start.raw ≤ b.start.raw := h3
  have h4' : b.«end».raw ≤ c.«end».raw := h4
  have e1 := StrIndex.mini_raw a.start b.start
  have e2 := StrIndex.maxi_raw a.«end» b.«end»
  constructor
  · show c.start.raw ≤ (StrIndex.mini a.start b.start).raw
    omega
  · show (StrIndex.maxi a.«end» b.«end»).raw ≤ c.«end».raw
    omega

/-- C10 witness: 0..30 contains 0..10 and 20..30, and contains their
merge 0..30. -/
theorem c10_witness :
    StrRange.contains ⟨⟨0, by decide⟩, ⟨30, by decide⟩⟩
      ⟨⟨0, by decide⟩, ⟨10, by decide⟩⟩ = true ∧
    StrRange.contains ⟨⟨0, by decide⟩, ⟨30, by decide⟩⟩
      ⟨⟨20, by decide⟩, ⟨30, by decide⟩⟩ = true ∧
    StrRange.merge ⟨⟨0, by decide⟩, ⟨10, by decide⟩⟩
      ⟨⟨20, by decide⟩, ⟨30, by decide⟩⟩ =
        some ⟨⟨0, by decide⟩, ⟨30, by decide⟩⟩ ∧
    StrRange.contains ⟨⟨0, by decide⟩, ⟨30, by decide⟩⟩
      ⟨⟨0, by decide⟩, ⟨30, by decide⟩⟩ = true :=
  ⟨by decide, by decide, by decide,
   c10_merge_least ⟨⟨0, by decide⟩, ⟨10, by decide⟩⟩
     ⟨⟨20, by decide⟩, ⟨30, by decide⟩⟩ ⟨⟨0, by decide⟩, ⟨30, by decide⟩⟩
     ⟨⟨0, by decide⟩, ⟨30, by decide⟩⟩ (by decide) (by decide) (by decide)⟩
